import Mathlib

/-!
Verification of the SEBI RAG retrieval-and-correction pipeline.

This file gives a shallow embedding, in Lean 4, of the algorithmic core of
the repository (`chunker.py`, `ingest.py`, `retriever.py`, `rag_chain.py`)
and proves the stated properties of that core.

Modelling conventions:
* Python dictionaries that carry a fixed field set become Lean structures
  with total fields (a missing key with a `.get(k, default)` read is
  modelled as the default value).
* Fallible external calls (language model, vector index) are injected as
  functions returning `Except Unit _`; `.error` models a raised exception
  caught at the call site.
* Python `float` scores are modelled as `ℚ` (exact arithmetic).
* Python's stable `sorted(..., reverse=True)` is modelled by the stable
  insertion sort `sortByKeyDesc` below.
-/

namespace SebiRag

/-! ### String helpers (Python `in`, i.e. substring containment) -/

/-- Prefix test on lists, written out so no library name is needed. -/
def isPrefOf {α : Type} [DecidableEq α] : List α → List α → Bool
  | [], _ => true
  | _ :: _, [] => false
  | x :: xs, y :: ys => x = y && isPrefOf xs ys

/-- Contiguous-sublist test on lists (Python `needle in hay` on strings). -/
def isSubOf {α : Type} [DecidableEq α] (xs : List α) : List α → Bool
  | [] => xs.isEmpty
  | y :: ys => isPrefOf xs (y :: ys) || isSubOf xs ys

/-- Python's `needle in hay` substring containment on strings. -/
def containsSub (hay needle : String) : Bool :=
  isSubOf needle.data hay.data

/-! ### Python string primitives

The pipeline uses `str.lower()`, `str.strip()`, slicing, `str.split("\n")`
and `sep.join(…)`.  They are implemented here structurally over the
character list of the string (semantically the library versions, written
out so that concrete runs reduce inside the kernel). -/

/-- Python `str.lower()`. -/
def strLower (s : String) : String := ⟨s.data.map Char.toLower⟩

/-- Python `str.strip()`: drop whitespace from both ends. -/
def strTrim (s : String) : String :=
  ⟨((s.data.dropWhile Char.isWhitespace).reverse.dropWhile
      Char.isWhitespace).reverse⟩

/-- Python slicing `s[:n]`. -/
def strTake (n : ℕ) (s : String) : String := ⟨s.data.take n⟩

/-- Split a character list at every newline. -/
def splitNlChars : List Char → List (List Char)
  | [] => [[]]
  | c :: cs =>
    let rest := splitNlChars cs
    if c = '\n' then [] :: rest
    else
      match rest with
      | [] => [[c]]
      | r :: rs => (c :: r) :: rs

/-- Python `s.split("\n")`. -/
def strSplitNl (s : String) : List String :=
  (splitNlChars s.data).map fun l => ⟨l⟩

/-- Python `sep.join(parts)`. -/
def strJoin (sep : String) : List String → String
  | [] => ""
  | [p] => p
  | p :: q :: ps => p ++ sep ++ strJoin sep (q :: ps)

/-- Contiguous-substring predicate: `s` occurs verbatim inside `t`. -/
def SubstrOf (s t : String) : Prop :=
  ∃ pre post, t.toList = pre ++ s.toList ++ post

/-! ### Stable descending sort by a key

Python's `list.sort(key=…, reverse=True)` / `sorted(…, reverse=True)` is a
stable sort: elements with equal keys keep their original relative order.
`sortByKeyDesc` is a stable insertion sort with exactly that behaviour. -/

/-- Insert `x` into a descending-sorted list, after all elements with a
strictly larger key and before all elements with a key `≤` its own
(so, before equal keys — which makes the fold below stable). -/
def insertKeyDesc {α β : Type} [LinearOrder β] (key : α → β) (x : α) :
    List α → List α
  | [] => [x]
  | y :: ys => if key x < key y then y :: insertKeyDesc key x ys else x :: y :: ys

/-- Stable insertion sort, descending by `key`. -/
def sortByKeyDesc {α β : Type} [LinearOrder β] (key : α → β) (l : List α) : List α :=
  l.foldr (insertKeyDesc key) []

theorem insertKeyDesc_perm {α β : Type} [LinearOrder β] (key : α → β) (x : α)
    (l : List α) : List.Perm (insertKeyDesc key x l) (x :: l) := by
  induction l with
  | nil => simp [insertKeyDesc]
  | cons y ys ih =>
    by_cases h : key x < key y
    · simp only [insertKeyDesc, if_pos h]
      exact ((ih.cons y).trans (List.Perm.swap x y ys))
    · simp [insertKeyDesc, if_neg h]

theorem sortByKeyDesc_perm {α β : Type} [LinearOrder β] (key : α → β)
    (l : List α) : List.Perm (sortByKeyDesc key l) l := by
  induction l with
  | nil => rfl
  | cons x xs ih =>
    exact (insertKeyDesc_perm key x (sortByKeyDesc key xs)).trans (ih.cons x)

theorem insertKeyDesc_pairwise {α β : Type} [LinearOrder β] (key : α → β)
    (q : α → α → Prop) (x : α) (acc : List α)
    (hacc : acc.Pairwise fun a b => key b < key a ∨ (key a = key b ∧ q a b))
    (hx : ∀ z ∈ acc, q x z) :
    (insertKeyDesc key x acc).Pairwise
      fun a b => key b < key a ∨ (key a = key b ∧ q a b) := by
  induction acc with
  | nil => simp [insertKeyDesc]
  | cons y ys ih =>
    rcases List.pairwise_cons.mp hacc with ⟨hy, hys⟩
    by_cases h : key x < key y
    · simp only [insertKeyDesc, if_pos h]
      refine List.pairwise_cons.mpr ⟨?_, ih hys (fun z hz => hx z (List.mem_cons_of_mem _ hz))⟩
      intro z hz
      rcases List.mem_cons.mp ((insertKeyDesc_perm key x ys).mem_iff.mp hz) with hz' | hz'
      · subst hz'; exact Or.inl h
      · exact hy z hz'
    · simp only [insertKeyDesc, if_neg h]
      push_neg at h
      refine List.pairwise_cons.mpr ⟨?_, hacc⟩
      intro z hz
      rcases List.mem_cons.mp hz with hz | hz
      · subst hz
        rcases lt_or_eq_of_le h with h' | h'
        · exact Or.inl h'
        · exact Or.inr ⟨h'.symm, hx z (List.mem_cons_self z ys)⟩
      · have hkz : key z ≤ key y := by
          rcases hy z hz with h' | h'
          · exact le_of_lt h'
          · exact le_of_eq h'.1.symm
        have hkzx : key z ≤ key x := le_trans hkz h
        rcases lt_or_eq_of_le hkzx with h' | h'
        · exact Or.inl h'
        · exact Or.inr ⟨h'.symm, hx z (List.mem_cons_of_mem _ hz)⟩

/-- Stability of `sortByKeyDesc`: if `q` orders the input (e.g. `q a b` =
"`a` occurs before `b`"), the output is pairwise "strictly larger key, or
equal key and `q`" — descending by key with ties kept in input order. -/
theorem sortByKeyDesc_pairwise {α β : Type} [LinearOrder β] (key : α → β)
    (q : α → α → Prop) (l : List α) (hl : l.Pairwise q) :
    (sortByKeyDesc key l).Pairwise
      fun a b => key b < key a ∨ (key a = key b ∧ q a b) := by
  induction l with
  | nil => simp [sortByKeyDesc]
  | cons x xs ih =>
    rcases List.pairwise_cons.mp hl with ⟨hx, hxs⟩
    have : sortByKeyDesc key (x :: xs) =
        insertKeyDesc key x (sortByKeyDesc key xs) := rfl
    rw [this]
    refine insertKeyDesc_pairwise key q x _ (ih hxs) ?_
    intro z hz
    exact hx z ((sortByKeyDesc_perm key xs).mem_iff.mp hz)

/-! ### Retrieved documents

A retrieved child chunk, as seen by `retriever.py` / `rag_chain.py`: a
langchain `Document` with `page_content` and the metadata block written by
`chunker.create_parent_child_chunks`.  The metadata keys read by the
pipeline (`source`, `section`, `date`, `audience`, `status`, `pages`,
`child_id`, `parent_id`) are modelled as total string fields; the
`metadata.get(key, default)` reads in the source always find the key on
chunks produced by the chunker.  The field `sectionLabel` models the
metadata key `"section"` (a reserved word in Lean). -/

structure Doc where
  page_content : String
  source : String
  sectionLabel : String
  date : String
  audience : String
  status : String
  pages : String
  child_id : String
  parent_id : String
deriving DecidableEq, Repr

/-! ### Relevance grading (`SEBIRAGChain.grade_relevance`, rag_chain.py 95-112)

The grading model call is injected as
`gradeLLM : excerpt → question → Except Unit String`; `.error ()` models a
raised exception from `chain.invoke`. -/

/-- Defensive parse of the one-word grading response (rag_chain.py 106-107):
keep the document iff the stripped lowercased response contains
`"relevant"` but not `"not_relevant"`. -/
def relevantResp (result : String) : Bool :=
  let text := strLower (strTrim result)
  !containsSub text "not_relevant" && containsSub text "relevant"

/-- Whether `grade_relevance` keeps a document: on a successful grading call
the parsed verdict decides; on a failure the document is kept
(rag_chain.py 109-110, "include on error to be safe"). -/
def gradeKeep (gradeLLM : String → String → Except Unit String)
    (question : String) (doc : Doc) : Bool :=
  match gradeLLM (strTake 800 doc.page_content) question with
  | .ok result => relevantResp result
  | .error _ => true

/-- `SEBIRAGChain.grade_relevance` (rag_chain.py 95-112): filter the
documents by the per-chunk grade, falling back to the full input list when
nothing survives ("never return empty"). -/
def grade_relevance (gradeLLM : String → String → Except Unit String)
    (docs : List Doc) (question : String) : List Doc :=
  let relevant := docs.filter (gradeKeep gradeLLM question)
  if relevant.isEmpty then docs else relevant

/-- C1: for every non-empty input list, `grade_relevance` returns a
non-empty list; every document whose grading call fails is kept
(fail-open, per chunk); and when every grading call fails the full input
list is returned unchanged, in order. -/
theorem grade_relevance_fail_open
    (g : String → String → Except Unit String) (docs : List Doc)
    (q : String) (h : docs ≠ []) :
    grade_relevance g docs q ≠ [] ∧
    (∀ d ∈ docs, g (strTake 800 d.page_content) q = .error () →
      d ∈ grade_relevance g docs q) ∧
    ((∀ d ∈ docs, g (strTake 800 d.page_content) q = .error ()) →
      grade_relevance g docs q = docs) := by
  refine ⟨?_, ?_, ?_⟩
  · unfold grade_relevance
    by_cases he : (docs.filter (gradeKeep g q)).isEmpty
    · simpa [he]
    · simp only [he, if_neg]
      simpa [List.isEmpty_iff] using he
  · intro d hd herr
    have hkeep : gradeKeep g q d = true := by
      unfold gradeKeep
      rw [herr]
    unfold grade_relevance
    by_cases he : (docs.filter (gradeKeep g q)).isEmpty
    · simpa [he]
    · simp only [he, if_neg]
      simpa [List.mem_filter] using ⟨hd, hkeep⟩
  · intro hall
    have hfull : docs.filter (gradeKeep g q) = docs := by
      apply List.filter_eq_self.mpr
      intro d hd
      unfold gradeKeep
      rw [hall d hd]
    unfold grade_relevance
    rw [hfull]
    simp [List.isEmpty_iff, h]

/-- Concrete instantiation of C1: with a grading call that always fails,
a two-element list is returned unchanged. -/
theorem grade_relevance_fail_open_witness :
    grade_relevance (fun _ _ => .error ())
      [⟨"alpha", "f1", "", "2024", "All", "ACTIVE", "1", "c1", "p1"⟩,
       ⟨"beta", "f2", "", "2022", "All", "ACTIVE", "2", "c2", "p2"⟩] "q" =
      [⟨"alpha", "f1", "", "2024", "All", "ACTIVE", "1", "c1", "p1"⟩,
       ⟨"beta", "f2", "", "2022", "All", "ACTIVE", "2", "c2", "p2"⟩] :=
  (grade_relevance_fail_open (fun _ _ => .error ()) _ "q"
    (by simp)).2.2 (fun _ _ => rfl)

/-- C9: `grade_relevance` returns an order-preserving sublist of its input:
the subsequence of documents graded (or defaulted) relevant, or the whole
input when that subsequence is empty. -/
theorem grade_relevance_sublist
    (g : String → String → Except Unit String) (docs : List Doc)
    (q : String) :
    List.Sublist (grade_relevance g docs q) docs ∧
    (grade_relevance g docs q =
      if (docs.filter (gradeKeep g q)).isEmpty then docs
      else docs.filter (gradeKeep g q)) := by
  constructor
  · unfold grade_relevance
    by_cases he : (docs.filter (gradeKeep g q)).isEmpty
    · simp [he]
    · simp only [he, if_neg]
      simp only [Bool.false_eq_true, if_false]
      exact List.filter_sublist docs
  · rfl

/-! ### Reciprocal Rank Fusion (`SEBIRetriever.reciprocal_rank_fusion`,
retriever.py 101-114)

The Python code accumulates scores in a `dict[str, float]` keyed by
`dumps(doc)` — langchain's canonical serialization, for which
`loads (dumps doc)` reconstructs an equal document, so byte-equality of
keys is value-equality of documents.  The dict (insertion-ordered) is
modelled as an association list `List (Doc × ℚ)`; `float` scores are
modelled as exact rationals.  `sorted(fused.items(), key=…, reverse=True)`
is the stable descending sort `sortByKeyDesc Prod.snd`. -/

/-- `fused.setdefault(key, 0.0); fused[key] += v` on an insertion-ordered
dict: add `v` to the entry of `d` in place, or append a new entry. -/
def addScore : List (Doc × ℚ) → Doc → ℚ → List (Doc × ℚ)
  | [], d, v => [(d, v)]
  | (a, s) :: f, d, v =>
    if a = d then (a, s + v) :: f else (a, s) :: addScore f d v

/-- One iteration of the inner loop of `reciprocal_rank_fusion`:
`fused[dumps(doc)] += 1.0 / (rank + k)` for the pair `rd = (rank, doc)`. -/
def rrfStep (k : ℕ) (f : List (Doc × ℚ)) (rd : ℕ × Doc) : List (Doc × ℚ) :=
  addScore f rd.2 (1 / ((rd.1 : ℚ) + (k : ℚ)))

/-- The inner loop of `reciprocal_rank_fusion` over one ranked list
(`for rank, doc in enumerate(docs)`). -/
def rrfFoldList (k : ℕ) (f : List (Doc × ℚ)) (docs : List Doc) :
    List (Doc × ℚ) :=
  docs.enum.foldl (rrfStep k) f

/-- The fully accumulated score dict (`for docs in result_lists: …`). -/
def rrfAccum (k : ℕ) (resultLists : List (List Doc)) : List (Doc × ℚ) :=
  resultLists.foldl (rrfFoldList k) []

/-- `SEBIRetriever.reciprocal_rank_fusion` (retriever.py 101-114):
accumulate reciprocal-rank scores, sort by score descending (stably, as
Python's `sorted`), and return the documents (`loads` of each key). -/
def reciprocal_rank_fusion (resultLists : List (List Doc)) (k : ℕ) :
    List Doc :=
  (sortByKeyDesc Prod.snd (rrfAccum k resultLists)).map Prod.fst

/-- Total score of `d` in an association list (0 when absent). -/
def scoreOf (f : List (Doc × ℚ)) (d : Doc) : ℚ :=
  ((f.filter fun e => e.1 = d).map Prod.snd).sum

/-- The RRF score of the claim: the sum of `1/(r+k)` over every input list
in which `d` appears, `r` being its zero-based rank there. -/
def rrfScore (k : ℕ) (lists : List (List Doc)) (d : Doc) : ℚ :=
  ((lists.filter fun l => d ∈ l).map
    (fun l => 1 / ((l.indexOf d : ℚ) + (k : ℚ)))).sum

/-- Contribution of one ranked list, enumerated from rank `n`, to the
score of `e`. -/
def listContribFrom (k n : ℕ) (docs : List Doc) (e : Doc) : ℚ :=
  (((docs.enumFrom n).filter fun rd => rd.2 = e).map
    (fun rd => 1 / ((rd.1 : ℚ) + (k : ℚ)))).sum

/-- One step of first-occurrence key accumulation (what `setdefault` does
to the dict's key sequence). -/
def keyStep (ks : List Doc) (d : Doc) : List Doc :=
  if d ∈ ks then ks else ks ++ [d]

/-- The distinct documents of `l` in order of first appearance. -/
def firstOccs (l : List Doc) : List Doc :=
  l.foldl keyStep []

theorem scoreOf_nil (d : Doc) : scoreOf [] d = 0 := rfl

theorem scoreOf_cons (a : Doc) (s : ℚ) (f : List (Doc × ℚ)) (e : Doc) :
    scoreOf ((a, s) :: f) e = (if a = e then s else 0) + scoreOf f e := by
  unfold scoreOf
  rw [List.filter_cons]
  by_cases h : a = e <;> simp [h]

theorem scoreOf_addScore (f : List (Doc × ℚ)) (d : Doc) (v : ℚ) (e : Doc) :
    scoreOf (addScore f d v) e = scoreOf f e + if e = d then v else 0 := by
  induction f with
  | nil =>
    show scoreOf [(d, v)] e = scoreOf [] e + if e = d then v else 0
    rw [scoreOf_cons, scoreOf_nil]
    by_cases h : e = d
    · subst h; simp
    · rw [if_neg h, if_neg (fun hh => h hh.symm)]
  | cons p f ih =>
    obtain ⟨a, s⟩ := p
    simp only [addScore]
    by_cases had : a = d
    · rw [if_pos had]
      subst had
      rw [scoreOf_cons, scoreOf_cons]
      by_cases he : a = e
      · subst he; simp; ring
      · have h2 : ¬ e = a := fun hh => he hh.symm
        simp [he, h2]
    · rw [if_neg had]
      rw [scoreOf_cons, scoreOf_cons, ih]
      ring

theorem keys_addScore (f : List (Doc × ℚ)) (d : Doc) (v : ℚ) :
    (addScore f d v).map Prod.fst = keyStep (f.map Prod.fst) d := by
  induction f with
  | nil => simp [addScore, keyStep]
  | cons p f ih =>
    obtain ⟨a, s⟩ := p
    by_cases had : a = d
    · subst had
      simp [addScore, keyStep]
    · have hda : d ≠ a := fun hh => had hh.symm
      simp only [addScore, if_neg had, List.map_cons, ih, keyStep]
      by_cases hmem : d ∈ f.map Prod.fst
      · simp [hmem, hda]
      · simp [hmem, hda]

theorem scoreOf_eq_zero_of_not_mem (f : List (Doc × ℚ)) (d : Doc)
    (h : d ∉ f.map Prod.fst) : scoreOf f d = 0 := by
  induction f with
  | nil => rfl
  | cons p f ih =>
    obtain ⟨a, s⟩ := p
    rw [scoreOf_cons]
    have ha : a ≠ d := by
      intro hh
      exact h (by simp [hh])
    have hd : d ∉ f.map Prod.fst := fun hh => h (by simp [hh])
    simp [ha, ih hd]

/-- In a dict with no duplicate keys, each entry's stored value is its
total score. -/
theorem snd_eq_scoreOf (f : List (Doc × ℚ)) (hnd : (f.map Prod.fst).Nodup) :
    ∀ p ∈ f, p.2 = scoreOf f p.1 := by
  induction f with
  | nil => intro p hp; cases hp
  | cons q f ih =>
    obtain ⟨a, s⟩ := q
    simp only [List.map_cons, List.nodup_cons] at hnd
    intro p hp
    rcases List.mem_cons.mp hp with hp | hp
    · subst hp
      rw [scoreOf_cons]
      simp [scoreOf_eq_zero_of_not_mem f a hnd.1]
    · have h1 : a ≠ p.1 := by
        intro hh
        exact hnd.1 (hh ▸ List.mem_map_of_mem Prod.fst hp)
      rw [scoreOf_cons, if_neg h1, ih hnd.2 p hp]
      ring

theorem listContribFrom_cons (k n : ℕ) (x : Doc) (xs : List Doc) (e : Doc) :
    listContribFrom k n (x :: xs) e =
      (if x = e then 1 / ((n : ℚ) + (k : ℚ)) else 0) +
        listContribFrom k (n + 1) xs e := by
  unfold listContribFrom
  rw [List.enumFrom_cons, List.filter_cons]
  by_cases h : x = e <;> simp [h]

theorem scoreOf_foldEnum (k : ℕ) (e : Doc) (docs : List Doc) :
    ∀ (n : ℕ) (f : List (Doc × ℚ)),
      scoreOf ((docs.enumFrom n).foldl (rrfStep k) f) e =
        scoreOf f e + listContribFrom k n docs e := by
  induction docs with
  | nil => intro n f; simp [listContribFrom]
  | cons x xs ih =>
    intro n f
    rw [List.enumFrom_cons, List.foldl_cons, ih (n + 1), listContribFrom_cons]
    show scoreOf (addScore f x (1 / ((n : ℚ) + (k : ℚ)))) e + _ = _
    rw [scoreOf_addScore]
    by_cases h : e = x
    · subst h; simp; ring
    · have h2 : ¬ x = e := fun hh => h hh.symm
      simp [h, h2]

theorem listContribFrom_nodup (k : ℕ) (e : Doc) (docs : List Doc)
    (hnd : docs.Nodup) :
    ∀ n : ℕ, listContribFrom k n docs e =
      if e ∈ docs then 1 / (((n + docs.indexOf e : ℕ) : ℚ) + (k : ℚ))
      else 0 := by
  induction docs with
  | nil => intro n; simp [listContribFrom]
  | cons x xs ih =>
    rcases List.nodup_cons.mp hnd with ⟨hx, hxs⟩
    intro n
    rw [listContribFrom_cons]
    by_cases h : x = e
    · subst h
      have hz : listContribFrom k (n + 1) xs x = 0 := by
        rw [ih hxs (n + 1), if_neg hx]
      rw [hz, if_pos rfl, if_pos (List.mem_cons_self x xs),
        List.indexOf_cons_self]
      simp
    · have hne : e ≠ x := fun hh => h hh.symm
      rw [if_neg h, ih hxs (n + 1), List.indexOf_cons_ne xs h]
      by_cases hmem : e ∈ xs
      · have hm2 : e ∈ x :: xs := List.mem_cons_of_mem x hmem
        rw [if_pos hmem, if_pos hm2]
        have harith : (n + 1) + xs.indexOf e = n + (xs.indexOf e).succ := by
          omega
        rw [harith]
        ring
      · have hm2 : e ∉ x :: xs := by
          simp [List.mem_cons, hne, hmem]
        rw [if_neg hmem, if_neg hm2]
        ring

theorem keys_foldEnum (k : ℕ) (docs : List Doc) :
    ∀ (n : ℕ) (f : List (Doc × ℚ)),
      ((docs.enumFrom n).foldl (rrfStep k) f).map Prod.fst =
        docs.foldl keyStep (f.map Prod.fst) := by
  induction docs with
  | nil => intro n f; simp
  | cons x xs ih =>
    intro n f
    rw [List.enumFrom_cons, List.foldl_cons, List.foldl_cons, ih (n + 1)]
    congr 1
    exact keys_addScore f x _

theorem scoreOf_foldLists (k : ℕ) (e : Doc) (lists : List (List Doc)) :
    ∀ f, scoreOf (lists.foldl (rrfFoldList k) f) e =
      scoreOf f e + (lists.map fun l => listContribFrom k 0 l e).sum := by
  induction lists with
  | nil => intro f; simp
  | cons l ls ih =>
    intro f
    rw [List.foldl_cons, ih]
    show scoreOf ((l.enumFrom 0).foldl (rrfStep k) f) e + _ = _
    rw [scoreOf_foldEnum]
    rw [List.map_cons, List.sum_cons]
    ring

theorem keys_foldLists (k : ℕ) (lists : List (List Doc)) :
    ∀ f, (lists.foldl (rrfFoldList k) f).map Prod.fst =
      lists.flatten.foldl keyStep (f.map Prod.fst) := by
  induction lists with
  | nil => intro f; simp
  | cons l ls ih =>
    intro f
    rw [List.foldl_cons, ih, List.flatten_cons, List.foldl_append]
    congr 1
    exact keys_foldEnum k l 0 f

theorem keys_rrfAccum (k : ℕ) (lists : List (List Doc)) :
    (rrfAccum k lists).map Prod.fst = firstOccs lists.flatten := by
  unfold rrfAccum firstOccs
  rw [keys_foldLists]
  rfl

theorem sum_map_ite {γ : Type} (L : List γ) (p : γ → Prop) [DecidablePred p]
    (g : γ → ℚ) :
    (L.map fun x => if p x then g x else 0).sum =
      ((L.filter fun x => decide (p x)).map g).sum := by
  induction L with
  | nil => rfl
  | cons x xs ih =>
    rw [List.map_cons, List.sum_cons, List.filter_cons]
    by_cases h : p x <;> simp [h, ih]

theorem nodup_foldl_keyStep (l : List Doc) :
    ∀ ks : List Doc, ks.Nodup → (l.foldl keyStep ks).Nodup := by
  induction l with
  | nil => intro ks h; exact h
  | cons d l ih =>
    intro ks h
    rw [List.foldl_cons]
    apply ih
    unfold keyStep
    by_cases hd : d ∈ ks
    · simpa [hd]
    · simp [hd, h, List.nodup_append]

theorem mem_foldl_keyStep (e : Doc) (l : List Doc) :
    ∀ ks, e ∈ l.foldl keyStep ks ↔ e ∈ ks ∨ e ∈ l := by
  induction l with
  | nil => intro ks; simp
  | cons d l ih =>
    intro ks
    rw [List.foldl_cons, ih]
    unfold keyStep
    by_cases hd : d ∈ ks
    · rw [if_pos hd]
      simp only [List.mem_cons]
      constructor
      · rintro (h | h)
        · exact Or.inl h
        · exact Or.inr (Or.inr h)
      · rintro (h | h | h)
        · exact Or.inl h
        · exact Or.inl (h ▸ hd)
        · exact Or.inr h
    · rw [if_neg hd]
      simp only [List.mem_append, List.mem_singleton, List.mem_cons]
      tauto

theorem pairwise_indexOf_self (l : List Doc) (h : l.Nodup) :
    l.Pairwise fun a b => l.indexOf a < l.indexOf b := by
  rw [List.pairwise_iff_getElem]
  intro i j hi hj hij
  rw [List.indexOf_getElem h i hi, List.indexOf_getElem h j hj]
  exact hij

/-- C2: `reciprocal_rank_fusion` returns exactly the distinct chunks of the
input lists (identity = canonical serialization, i.e. document value
equality), each carrying the accumulated score `Σ 1/(r+K)` over the lists
in which it appears (`r` its zero-based rank there), ordered by score
descending with ties broken stably by first-appearance order. -/
theorem reciprocal_rank_fusion_spec (k : ℕ) (lists : List (List Doc))
    (_hk : 0 < k) (hnd : ∀ l ∈ lists, l.Nodup) :
    List.Perm (reciprocal_rank_fusion lists k) (firstOccs lists.flatten) ∧
    (∀ d ∈ lists.flatten,
      scoreOf (rrfAccum k lists) d = rrfScore k lists d) ∧
    (reciprocal_rank_fusion lists k).Pairwise (fun a b =>
      rrfScore k lists b < rrfScore k lists a ∨
      (rrfScore k lists a = rrfScore k lists b ∧
        (firstOccs lists.flatten).indexOf a <
          (firstOccs lists.flatten).indexOf b)) := by
  have hkeys : (rrfAccum k lists).map Prod.fst = firstOccs lists.flatten :=
    keys_rrfAccum k lists
  have hnodup : (firstOccs lists.flatten).Nodup :=
    nodup_foldl_keyStep _ [] List.nodup_nil
  have hknd : ((rrfAccum k lists).map Prod.fst).Nodup := by
    rw [hkeys]; exact hnodup
  have hscore2 : ∀ d, scoreOf (rrfAccum k lists) d = rrfScore k lists d := by
    intro d
    unfold rrfAccum
    rw [scoreOf_foldLists, scoreOf_nil]
    have hcongr : ∀ l ∈ lists,
        listContribFrom k 0 l d =
          if d ∈ l then 1 / ((l.indexOf d : ℚ) + (k : ℚ)) else 0 := by
      intro l hl
      rw [listContribFrom_nodup k d l (hnd l hl) 0]
      simp
    rw [List.map_congr_left hcongr, sum_map_ite lists (fun l => d ∈ l),
      zero_add]
    rfl
  refine ⟨?_, fun d _ => hscore2 d, ?_⟩
  · unfold reciprocal_rank_fusion
    have hp := (sortByKeyDesc_perm (Prod.snd) (rrfAccum k lists)).map Prod.fst
    rw [hkeys] at hp
    exact hp
  · have h1 := pairwise_indexOf_self (firstOccs lists.flatten) hnodup
    have h2 : ((rrfAccum k lists).map Prod.fst).Pairwise
        (fun a b => (firstOccs lists.flatten).indexOf a <
          (firstOccs lists.flatten).indexOf b) := by
      rw [hkeys]; exact h1
    have hpw0 := List.pairwise_map.mp h2
    have hsorted := sortByKeyDesc_pairwise Prod.snd _ (rrfAccum k lists) hpw0
    have hval : ∀ p ∈ rrfAccum k lists, p.2 = rrfScore k lists p.1 := by
      intro p hp
      rw [snd_eq_scoreOf _ hknd p hp, hscore2]
    unfold reciprocal_rank_fusion
    apply List.pairwise_map.mpr
    refine hsorted.imp_of_mem ?_
    intro a b ha hb hab
    have ha2 : a ∈ rrfAccum k lists :=
      (sortByKeyDesc_perm Prod.snd (rrfAccum k lists)).mem_iff.mp ha
    have hb2 : b ∈ rrfAccum k lists :=
      (sortByKeyDesc_perm Prod.snd (rrfAccum k lists)).mem_iff.mp hb
    rcases hab with hlt | ⟨heq, hidx⟩
    · exact Or.inl (by rw [← hval a ha2, ← hval b hb2]; exact hlt)
    · exact Or.inr ⟨by rw [← hval a ha2, ← hval b hb2]; exact heq, hidx⟩

/-- Concrete document values used in witnesses. -/
def docA : Doc := ⟨"alpha", "f1", "", "2024", "All", "ACTIVE", "1", "ca", "pa"⟩

/-- Second concrete document value. -/
def docB : Doc := ⟨"beta", "f2", "", "2023", "All", "ACTIVE", "2", "cb", "pb"⟩

/-- Third concrete document value. -/
def docC : Doc := ⟨"gamma", "f3", "", "2022", "All", "ACTIVE", "3", "cc", "pc"⟩

/-- Concrete instantiation of C2 at `K = 60` on two overlapping ranked
lists. -/
theorem reciprocal_rank_fusion_spec_witness :
    List.Perm (reciprocal_rank_fusion [[docA, docB], [docB, docC]] 60)
      (firstOccs ([[docA, docB], [docB, docC]] : List (List Doc)).flatten) :=
  (reciprocal_rank_fusion_spec 60 [[docA, docB], [docB, docC]]
    (by decide) (by decide)).1

/-! ### Configuration constants (config.py) -/

def MULTI_QUERY_COUNT : ℕ := 3

def TOP_K : ℕ := 5

def RRF_K : ℕ := 60

/-! ### Multi-query generation (`SEBIRetriever.generate_multi_queries`,
retriever.py 66-95) -/

/-- The output parser attached to the multi-query chain
(retriever.py 84): strip the response, split on newlines, strip each
line, drop empty lines. -/
def parseQueries (resp : String) : List String :=
  ((strSplitNl (strTrim resp)).map strTrim).filter (fun q => q ≠ "")

/-- `SEBIRetriever.generate_multi_queries` (retriever.py 66-95): on
success, the original question followed by at most `MULTI_QUERY_COUNT`
parsed alternate phrasings; on any model failure, just the original
question.  Total by construction — the component never raises. -/
def generate_multi_queries (expandLLM : String → Except Unit String)
    (question : String) : List String :=
  match expandLLM question with
  | .ok resp => question :: (parseQueries resp).take MULTI_QUERY_COUNT
  | .error _ => [question]

/-- C7: `generate_multi_queries` never raises (it is a total function into
`List String`); on model failure it returns exactly `[question]`; on
success it returns the question followed by at most `MULTI_QUERY_COUNT`
elements, each a non-empty trimmed line of the model response. -/
theorem generate_multi_queries_spec (g : String → Except Unit String)
    (q : String) :
    (g q = .error () → generate_multi_queries g q = [q]) ∧
    (∀ resp, g q = .ok resp →
      generate_multi_queries g q =
        q :: (parseQueries resp).take MULTI_QUERY_COUNT ∧
      ((parseQueries resp).take MULTI_QUERY_COUNT).length ≤
        MULTI_QUERY_COUNT ∧
      ∀ s ∈ (parseQueries resp).take MULTI_QUERY_COUNT,
        s ∈ (strSplitNl (strTrim resp)).map strTrim ∧ s ≠ "") := by
  constructor
  · intro herr
    unfold generate_multi_queries
    rw [herr]
  · intro resp hok
    refine ⟨?_, ?_, ?_⟩
    · unfold generate_multi_queries
      rw [hok]
    · rw [List.length_take]
      exact min_le_left _ _
    · intro s hs
      have hs' : s ∈ parseQueries resp := List.mem_of_mem_take hs
      unfold parseQueries at hs'
      have := List.mem_filter.mp hs'
      exact ⟨this.1, by simpa using this.2⟩

/-- Concrete instantiation of C7: a failing expansion model yields the
single-element query list. -/
theorem generate_multi_queries_spec_witness :
    generate_multi_queries (fun _ => .error ()) "what is a REIT" =
      ["what is a REIT"] :=
  (generate_multi_queries_spec (fun _ => .error ()) "what is a REIT").1 rfl

/-! ### Metadata filter (`SEBIRetriever.build_metadata_filter`,
retriever.py 120-161) -/

/-- One ChromaDB where-clause. -/
inductive Clause where
  | audience (a : String)
  | isLatest (b : Bool)
  | status (s : String)
deriving DecidableEq, Repr

/-- A ChromaDB where-filter: a single clause dict, or an `$and` of several
clauses (retriever.py 157-161). -/
inductive MetaFilter where
  | single (c : Clause)
  | conj (cs : List Clause)
deriving DecidableEq, Repr

/-- The ordered audience keyword table (retriever.py 124-142); Python dict
iteration order is insertion order, and the loop breaks on the first
match. -/
def audience_map : List (String × String) := [
  ("stock broker", "Stock Brokers"),
  ("mutual fund", "Mutual Funds"),
  ("depositor", "Depositories"),
  ("credit rating", "Credit Rating Agencies (CRAs)"),
  ("portfolio manager", "Portfolio Managers"),
  ("research analyst", "Research Analysts"),
  ("investment adviser", "Investment Advisers"),
  ("registrar", "Registrars to an Issue and Share Transfer Agents"),
  ("debenture trustee", "Debenture Trustees (DTs)"),
  ("stock exchange", "Stock Exchanges and Clearing Corporations"),
  ("clearing corporation", "Stock Exchanges and Clearing Corporations"),
  ("invit", "Infrastructure Investment Trusts (InvITs)"),
  ("reit", "Real Estate Investment Trusts (REITs)"),
  ("esg", "ESG Rating Providers (ERPs)"),
  ("social stock", "Social Stock Exchange"),
  ("listing obligation", "Listed Entities"),
  ("issue of capital", "Market Participants")]

/-- The audience clause: first keyword of the table contained in the
lowercased question wins (retriever.py 146-149). -/
def audienceClause (q : String) : List Clause :=
  match audience_map.find? (fun kv => containsSub q kv.1) with
  | some kv => [Clause.audience kv.2]
  | none => []

/-- `SEBIRetriever.build_metadata_filter` (retriever.py 120-161). -/
def build_metadata_filter (question : String) : Option MetaFilter :=
  let q := strLower question
  let clauses : List Clause :=
    audienceClause q ++
    (if containsSub q "latest" || containsSub q "current" ||
        containsSub q "most recent" || containsSub q "newest"
     then [Clause.isLatest true] else []) ++
    (if containsSub q "active" || containsSub q "in force" ||
        containsSub q "in effect"
     then [Clause.status "ACTIVE"] else [])
  match clauses with
  | [] => none
  | [c] => some (MetaFilter.single c)
  | cs => some (MetaFilter.conj cs)

/-! ### Per-query search with filter fallback (`SEBIRetriever.retrieve`,
retriever.py 211-232)

The vector index is injected as
`search : query → filter? → Except Unit (List Doc)` (always called with
`k = TOP_K`); `.error ()` models a raised exception. -/

/-- One expanded query's search (the body of the `for q in queries` loop,
retriever.py 213-232): with a filter, search filtered and fall back to an
unfiltered search when fewer than 2 results come back; on an exception,
retry unfiltered once; if that also fails the query contributes nothing
(`none`). -/
def searchAttempt
    (search : String → Option MetaFilter → Except Unit (List Doc))
    (q : String) : Option MetaFilter → Except Unit (List Doc)
  | some f =>
    match search q (some f) with
    | .ok docs => if docs.length < 2 then search q none else .ok docs
    | .error e => .error e
  | none => search q none

/-- The `except` handler around one query's search (retriever.py
225-232): on a raised exception, retry once unfiltered; if that raises
too, drop the query. -/
def searchOneQuery
    (search : String → Option MetaFilter → Except Unit (List Doc))
    (metaFilter : Option MetaFilter) (q : String) : Option (List Doc) :=
  match searchAttempt search q metaFilter with
  | .ok docs => some docs
  | .error _ =>
    match search q none with
    | .ok docs => some docs
    | .error _ => none

/-- C3: whenever a metadata filter is active and the filtered search
returns fewer than 2 results, the same query is re-issued unfiltered and
the unfiltered result list is that query's contribution to fusion. -/
theorem searchOneQuery_filter_fallback
    (search : String → Option MetaFilter → Except Unit (List Doc))
    (f : MetaFilter) (q : String) (ds ds' : List Doc)
    (hf : search q (some f) = .ok ds) (hlen : ds.length < 2)
    (hu : search q none = .ok ds') :
    searchOneQuery search (some f) q = some ds' := by
  have ha : searchAttempt search q (some f) = search q none := by
    simp only [searchAttempt]
    rw [hf]
    show (if ds.length < 2 then search q none else Except.ok ds) =
      search q none
    rw [if_pos hlen]
  unfold searchOneQuery
  rw [ha, hu]

/-- Concrete instantiation of C3: a stub returning exactly 1 result under
the filter and 5 results unfiltered contributes the 5 unfiltered
results. -/
theorem searchOneQuery_filter_fallback_witness :
    searchOneQuery
      (fun _ mf => match mf with
        | some _ => .ok [docA]
        | none => .ok [docA, docB, docC, docA, docB])
      (some (MetaFilter.single (Clause.audience "Mutual Funds"))) "q" =
      some [docA, docB, docC, docA, docB] :=
  searchOneQuery_filter_fallback _ _ "q" [docA] _ rfl (by decide) rfl

/-! ### Parent context and definitions context (retriever.py 167-194) -/

/-- `self.parent_store.get(pid, "")` on the parent-store mapping. -/
def lookupStore (store : List (String × String)) (pid : String) : String :=
  match store.find? (fun kv => kv.1 = pid) with
  | some kv => kv.2
  | none => ""

/-- `SEBIRetriever.get_parent_context` (retriever.py 167-177): walk the
fused children in rank order, deduplicating by parent id, keeping each
non-empty parent text. -/
def get_parent_context (store : List (String × String))
    (child_docs : List Doc) : List String :=
  (child_docs.foldl (fun acc doc =>
    let pid := doc.parent_id
    if pid ≠ "" ∧ pid ∉ acc.1 then
      let text := lookupStore store pid
      (acc.1 ++ [pid], if text ≠ "" then acc.2 ++ [text] else acc.2)
    else acc) (([], []) : List String × List String)).2

/-- `SEBIRetriever.get_definitions_context` (retriever.py 183-194): empty
when the glossary store is absent, the search fails, or returns nothing;
otherwise a bullet list of the top entries. -/
def get_definitions_context (hasStore : Bool)
    (defsSearch : String → Except Unit (List Doc)) (question : String) :
    String :=
  if !hasStore then ""
  else
    match defsSearch question with
    | .error _ => ""
    | .ok results =>
      if results.isEmpty then ""
      else "\n**Relevant Regulatory Definitions:**\n" ++
        strJoin "\n" (results.map fun d => "• " ++ d.page_content)
        ++ "\n"

/-! ### Injected collaborators and the full retrieval pipeline -/

/-- The external collaborators of the pipeline, injected as pure
functions: the language model at its four call sites, the vector index
(content and glossary collections), and the parent store. -/
structure Deps where
  expandLLM : String → Except Unit String
  search : String → Option MetaFilter → Except Unit (List Doc)
  hasDefsStore : Bool
  defsSearch : String → Except Unit (List Doc)
  parentStore : List (String × String)
  gradeLLM : String → String → Except Unit String
  genLLM : String → String → String → String → Except Unit String
  hallLLM : String → String → Except Unit String

/-- The dict returned by `SEBIRetriever.retrieve` (retriever.py 259-266). -/
structure Retrieval where
  child_docs : List Doc
  child_context : String
  parent_context : String
  definitions : String
  queries_used : List String
  metadata_filter : Option MetaFilter
deriving DecidableEq, Repr

/-- The per-chunk header + content block of the child context
(retriever.py 248-255).  The `metadata.get` defaults of the source never
fire on chunker-produced metadata, whose keys are all present. -/
def fmtChild (doc : Doc) : String :=
  "[Source: " ++ doc.source ++ " | Section: " ++ doc.sectionLabel ++
    " | Date: " ++ doc.date ++ " | Status: " ++ doc.status ++ "]\n" ++
    doc.page_content

/-- `SEBIRetriever.retrieve` (retriever.py 200-266): multi-query →
per-query search (with filter fallback) → RRF fusion truncated to
`TOP_K` → parent lookup → definitions → formatted context blocks. -/
def retrieve (d : Deps) (question : String) : Retrieval :=
  let queries := generate_multi_queries d.expandLLM question
  let metaFilter := build_metadata_filter question
  let all_results := queries.filterMap (searchOneQuery d.search metaFilter)
  let fused_docs :=
    if all_results.isEmpty then []
    else (reciprocal_rank_fusion all_results RRF_K).take TOP_K
  let parent_contexts := get_parent_context d.parentStore fused_docs
  let defs := get_definitions_context d.hasDefsStore d.defsSearch question
  let child_context := strJoin "\n\n---\n\n"
    (fused_docs.map fmtChild)
  let parent_context := strJoin "\n\n---\n\n"
    (parent_contexts.take 3)
  ⟨fused_docs, child_context, parent_context, defs, queries, metaFilter⟩

/-! ### Hallucination check (`SEBIRAGChain.check_hallucination`,
rag_chain.py 114-133) -/

/-- Defensive parse of the grounding verdict (rag_chain.py 124-131):
`"not_grounded"` is checked before `"partial"` before `"grounded"`
(substring containment on the stripped lowercased response), anything
else is `"unknown"`. -/
def parseGrounding (result : String) : String :=
  let text := strLower (strTrim result)
  if containsSub text "not_grounded" then "not_grounded"
  else if containsSub text "partial" then "partial"
  else if containsSub text "grounded" then "grounded"
  else "unknown"

/-- `SEBIRAGChain.check_hallucination` (rag_chain.py 114-133): grade the
answer against the first 6000 characters of the generation context; any
call failure yields `"unknown"`. -/
def check_hallucination (hallLLM : String → String → Except Unit String)
    (answer context : String) : String :=
  match hallLLM (strTake 6000 context) answer with
  | .ok result => parseGrounding result
  | .error _ => "unknown"

/-- The verdict → confidence dict lookup with default `"medium"`
(rag_chain.py 205-210). -/
def confMap (hall : String) : String :=
  if hall = "grounded" then "high"
  else if hall = "partial" then "medium"
  else if hall = "unknown" then "medium"
  else if hall = "not_grounded" then "low"
  else "medium"

/-- The caveat appended to a `not_grounded` answer (rag_chain.py
212-217). -/
def caveat : String :=
  "\n\n⚠️ *Note: Parts of this answer may not be directly supported by the source documents. Please verify against the original SEBI circulars.*"

/-- The templated not-found answer of the NO_RESULTS terminal state
(rag_chain.py 163-167). -/
def noResultsAnswer : String :=
  "I could not find relevant information in the SEBI regulatory documents for your question. Please try rephrasing or ask about a specific regulation."

/-- One source attribution record (rag_chain.py 226-233). -/
structure SourceRec where
  file : String
  sectionLabel : String
  date : String
  audience : String
  status : String
  pages : String
deriving DecidableEq, Repr

/-- Source list assembly (rag_chain.py 220-233): deduplicate the relevant
documents by source file, first occurrence wins. -/
def dedupSources (relevant : List Doc) : List SourceRec :=
  (relevant.foldl (fun acc doc =>
    if doc.source ∈ acc.1 then acc
    else (acc.1 ++ [doc.source],
      acc.2 ++ [⟨doc.source, doc.sectionLabel, doc.date, doc.audience,
        doc.status, doc.pages⟩]))
    (([], []) : List String × List SourceRec)).2

/-- `SEBIRAGChain.generate_answer` (rag_chain.py 139-146): the one model
call of the pipeline whose exception propagates to the caller; empty
context blocks are replaced by placeholders (Python `x or "(no …)"`). -/
def generate_answer
    (genLLM : String → String → String → String → Except Unit String)
    (question : String) (r : Retrieval) : Except Unit String :=
  genLLM question
    (if r.child_context = "" then "(no child context)" else r.child_context)
    (if r.parent_context = "" then "(no parent context)" else r.parent_context)
    r.definitions

/-- The result dict of `SEBIRAGChain.query` (rag_chain.py 235-243). -/
structure QueryResult where
  answer : String
  sources : List SourceRec
  confidence : String
  hallucination_check : String
  queries_used : List String
  num_relevant : ℕ
  num_retrieved : ℕ
deriving DecidableEq, Repr

/-- The retry merge of relevant documents (rag_chain.py 186-191): the ids
already seen are computed once from the original relevant list, then every
extra document with an unseen `child_id` is appended. -/
def mergeRetry (relevant extra : List Doc) : List Doc :=
  let seen_ids := relevant.map (fun d => d.child_id)
  relevant ++ extra.filter (fun doc => ¬ seen_ids.contains doc.child_id)

/-- Steps 2-3 of `SEBIRAGChain.query` (rag_chain.py 176-194): grade the
retrieved children; when fewer than 2 are relevant and a metadata filter
was active, re-retrieve once, grade, merge by child id and concatenate the
context blocks.  Returns the (possibly merged) retrieval and relevant
list. -/
def queryGenPath (d : Deps) (question : String) : Retrieval × List Doc :=
  let retrieval := retrieve d question
  let relevant_docs := grade_relevance d.gradeLLM retrieval.child_docs question
  if relevant_docs.length < 2 ∧ retrieval.metadata_filter.isSome then
    let retry := retrieve d question
    let extra := grade_relevance d.gradeLLM retry.child_docs question
    ({ retrieval with
        child_context :=
          retrieval.child_context ++ "\n\n---\n\n" ++ retry.child_context,
        parent_context :=
          retrieval.parent_context ++ "\n\n---\n\n" ++ retry.parent_context },
      mergeRetry relevant_docs extra)
  else (retrieval, relevant_docs)

/-- `SEBIRAGChain.query` (rag_chain.py 152-243): retrieve → (terminal
NO_RESULTS when nothing was retrieved) → grade → optional single retry →
generate → hallucination check → finalize.  The only uncaught exception
source is the answer-generation call. -/
def query (d : Deps) (question : String) : Except Unit QueryResult :=
  let retrieval := retrieve d question
  if retrieval.child_docs.isEmpty then
    .ok ⟨noResultsAnswer, [], "no_results", "n/a",
      retrieval.queries_used, 0, 0⟩
  else
    let rr := queryGenPath d question
    match generate_answer d.genLLM question rr.1 with
    | .error e => .error e
    | .ok answer0 =>
      let hall := check_hallucination d.hallLLM answer0
        (rr.1.child_context ++ "\n\n" ++ rr.1.parent_context)
      .ok ⟨(if hall = "not_grounded" then answer0 ++ caveat else answer0),
        dedupSources rr.2, confMap hall, hall, rr.1.queries_used,
        rr.2.length, retrieval.child_docs.length⟩

/-- C4: when retrieval yields zero child chunks, `query` terminates with
the templated not-found answer, no sources, confidence `"no_results"`,
`num_relevant = num_retrieved = 0` — returning `.ok` (never an
exception) and independent of the answer-generation model (generation is
not invoked). -/
theorem query_no_results (d : Deps) (question : String)
    (h : (retrieve d question).child_docs = []) :
    query d question =
      .ok ⟨noResultsAnswer, [], "no_results", "n/a",
        (retrieve d question).queries_used, 0, 0⟩ ∧
    (∀ g, query { d with genLLM := g } question = query d question) := by
  constructor
  · unfold query
    simp [h]
  · intro g
    have hr : retrieve { d with genLLM := g } question =
        retrieve d question := rfl
    have hqp : queryGenPath { d with genLLM := g } question =
        queryGenPath d question := rfl
    unfold query
    simp [hr, hqp, h]

/-- Concrete dependency stub whose index search always returns zero
results. -/
def stubDepsEmpty : Deps :=
  ⟨fun _ => .error (), fun _ _ => .ok [], false, fun _ => .ok [], [],
    fun _ _ => .error (), fun _ _ _ _ => .error (), fun _ _ => .error ()⟩

/-- Concrete instantiation of C4: a search stub returning zero results for
every expansion yields the NO_RESULTS terminal answer. -/
theorem query_no_results_witness :
    query stubDepsEmpty "when is settlement due" =
      .ok ⟨noResultsAnswer, [], "no_results", "n/a",
        (retrieve stubDepsEmpty "when is settlement due").queries_used,
        0, 0⟩ ∧
    (retrieve stubDepsEmpty "when is settlement due").queries_used =
      ["when is settlement due"] :=
  ⟨(query_no_results stubDepsEmpty "when is settlement due"
      (by decide)).1, by decide⟩

/-- C6: the grounding verdict is parsed by substring containment in the
priority order not_grounded → partial → grounded → unknown; a failed
grading call yields `"unknown"`; and on the generation path `query` maps
the verdict to confidence via grounded→high, partial→medium,
unknown→medium, not_grounded→low, appending the fixed caveat to the
answer exactly when the verdict is `"not_grounded"`. -/
theorem hallucination_spec (d : Deps) (question : String) :
    (∀ result : String,
      (containsSub (strLower (strTrim result)) "not_grounded" = true →
        parseGrounding result = "not_grounded") ∧
      (containsSub (strLower (strTrim result)) "not_grounded" = false →
        containsSub (strLower (strTrim result)) "partial" = true →
        parseGrounding result = "partial") ∧
      (containsSub (strLower (strTrim result)) "not_grounded" = false →
        containsSub (strLower (strTrim result)) "partial" = false →
        containsSub (strLower (strTrim result)) "grounded" = true →
        parseGrounding result = "grounded") ∧
      (containsSub (strLower (strTrim result)) "not_grounded" = false →
        containsSub (strLower (strTrim result)) "partial" = false →
        containsSub (strLower (strTrim result)) "grounded" = false →
        parseGrounding result = "unknown")) ∧
    (∀ (g : String → String → Except Unit String) (answer context : String),
      g (strTake 6000 context) answer = .error () →
      check_hallucination g answer context = "unknown") ∧
    (confMap "grounded" = "high" ∧ confMap "partial" = "medium" ∧
      confMap "unknown" = "medium" ∧ confMap "not_grounded" = "low") ∧
    (∀ (qr : QueryResult) (a0 : String),
      (retrieve d question).child_docs ≠ [] →
      generate_answer d.genLLM question (queryGenPath d question).1 =
        .ok a0 →
      query d question = .ok qr →
      qr.hallucination_check = check_hallucination d.hallLLM a0
        ((queryGenPath d question).1.child_context ++ "\n\n" ++
          (queryGenPath d question).1.parent_context) ∧
      qr.confidence = confMap qr.hallucination_check ∧
      qr.answer = (if qr.hallucination_check = "not_grounded"
        then a0 ++ caveat else a0) ∧
      (qr.hallucination_check = "not_grounded" →
        qr.confidence = "low" ∧ ∃ p, qr.answer = p ++ caveat)) := by
  refine ⟨?_, ?_, ⟨by decide, by decide, by decide, by decide⟩, ?_⟩
  · intro result
    refine ⟨?_, ?_, ?_, ?_⟩
    · intro h1
      unfold parseGrounding
      simp [h1]
    · intro h1 h2
      unfold parseGrounding
      simp [h1, h2]
    · intro h1 h2 h3
      unfold parseGrounding
      simp [h1, h2, h3]
    · intro h1 h2 h3
      unfold parseGrounding
      simp [h1, h2, h3]
  · intro g answer context herr
    unfold check_hallucination
    rw [herr]
  · intro qr a0 hne hgen hq
    have hie : (retrieve d question).child_docs.isEmpty = false := by
      simpa [List.isEmpty_iff] using hne
    unfold query at hq
    simp only [hie, Bool.false_eq_true, if_false, hgen,
      Except.ok.injEq] at hq
    subst hq
    refine ⟨rfl, rfl, rfl, ?_⟩
    intro hng
    have hng' : check_hallucination d.hallLLM a0
        ((queryGenPath d question).1.child_context ++ "\n\n" ++
          (queryGenPath d question).1.parent_context) = "not_grounded" := hng
    refine ⟨?_, ⟨a0, ?_⟩⟩
    · show confMap _ = "low"
      rw [hng']
      decide
    · show (if _ = "not_grounded" then a0 ++ caveat else a0) = a0 ++ caveat
      rw [if_pos hng']

/-- Concrete dependency stub for the generation path: one retrieved chunk,
a constant generated answer, a grounding verdict of `"grounded"`. -/
def stubDepsGen : Deps :=
  ⟨fun _ => .error (), fun _ _ => .ok [docA], false, fun _ => .ok [], [],
    fun _ _ => .error (), fun _ _ _ _ => .ok "ans",
    fun _ _ => .ok "grounded"⟩

/-- Concrete instantiation of C6: the parse priority at `"not_grounded"`,
the failure default, and the full generation path with a `"grounded"`
verdict. -/
theorem hallucination_spec_witness :
    parseGrounding "not_grounded" = "not_grounded" ∧
    check_hallucination (fun _ _ => Except.error ()) "ans" "ctx" =
      "unknown" ∧
    query stubDepsGen "q0" =
      .ok ⟨"ans", dedupSources [docA], confMap "grounded", "grounded",
        ["q0"], 1, 1⟩ ∧
    check_hallucination stubDepsGen.hallLLM "ans"
      ((queryGenPath stubDepsGen "q0").1.child_context ++ "\n\n" ++
        (queryGenPath stubDepsGen "q0").1.parent_context) = "grounded" ∧
    confMap "grounded" = "high" := by
  have h := hallucination_spec stubDepsGen "q0"
  have h3 := h.2.2.2
    ⟨"ans", dedupSources [docA], confMap "grounded", "grounded",
      ["q0"], 1, 1⟩ "ans" (by decide) rfl rfl
  refine ⟨(h.1 "not_grounded").1 (by decide),
    h.2.1 (fun _ _ => Except.error ()) "ans" "ctx" rfl, rfl,
    h3.1.symm, h.2.2.1.1⟩

/-! ### Parent-child chunking (`chunker.create_parent_child_chunks`,
chunker.py 49-135)

External pieces injected as parameters:
* `parentSplit` / `childSplit` model the two
  `RecursiveCharacterTextSplitter.split_text` instances (third-party
  library code; its layered separator strategy is not re-implemented
  here),
* `detectSection` models the regex scanner `detect_section_header`
  (chunker.py 27-42) and `pageRange` the `[Page N]` marker extraction
  (chunker.py 95-99) — pure string-to-string helpers no claim depends on,
* `ids` models the stream of `str(uuid.uuid4())` values: the n-th
  generated id is `ids n`. -/

/-- The document record consumed by the chunker (the `doc_info` dict);
`.get` defaults of chunker.py 61-70 are modelled as total fields. -/
structure DocInfo where
  filename : String
  title : String
  full_text : String
  date : String
  audience : String
  subject : String
  is_latest : Bool
  status : String
  references : List String
deriving DecidableEq, Repr

/-- The metadata dict attached to a chunk (chunker.py 61-70, 101-107,
120-128).  `references` keeps the list itself (the source stores its
fixed `json.dumps` serialization); parent chunks, which carry no
`child_id`/`has_table` keys, leave those fields at `""`/`false`. -/
structure ChunkMeta where
  source : String
  title : String
  date : String
  audience : String
  subject : String
  is_latest : Bool
  status : String
  references : List String
  parent_id : String
  sectionLabel : String
  pages : String
  chunk_type : String
  child_id : String
  has_table : Bool
deriving DecidableEq, Repr

/-- A produced chunk record `{id, text, metadata}`. -/
structure Chunk where
  id : String
  text : String
  metadata : ChunkMeta
deriving DecidableEq, Repr

/-- The table heuristic (chunker.py 119): a pipe and a dash row marker. -/
def hasTable (text : String) : Bool :=
  containsSub text "|" && containsSub text "---"

/-- The inner `for child_text in child_texts` loop (chunker.py 117-133),
threading the id counter. -/
def chunkChildren (base : ChunkMeta) (pid sec pg : String) (ids : ℕ → String)
    (childTexts : List String) (start : ℕ) : List Chunk × ℕ :=
  childTexts.foldl (fun acc2 ctext =>
    (acc2.1 ++ [⟨ids acc2.2, ctext,
      { base with
          child_id := ids acc2.2, parent_id := pid,
          sectionLabel := sec, pages := pg, chunk_type := "child",
          has_table := hasTable ctext }⟩], acc2.2 + 1)) ([], start)

/-- The body of the `for parent_text in parent_texts` loop
(chunker.py 90-133). -/
def chunkStep (childSplit : String → List String)
    (detectSection pageRange : String → String) (ids : ℕ → String)
    (base : ChunkMeta) (acc : List Chunk × List Chunk × ℕ)
    (ptext : String) : List Chunk × List Chunk × ℕ :=
  let pid := ids acc.2.2
  let sec := detectSection ptext
  let pg := pageRange ptext
  let pmeta := { base with
    parent_id := pid, sectionLabel := sec,
    pages := pg, chunk_type := "parent" }
  let inner := chunkChildren base pid sec pg ids (childSplit ptext)
    (acc.2.2 + 1)
  (acc.1 ++ [⟨pid, ptext, pmeta⟩], acc.2.1 ++ inner.1, inner.2)

/-- `chunker.create_parent_child_chunks` (chunker.py 49-135): a document
with empty (whitespace-only) extracted text yields no chunks; otherwise
every parent window is recorded and re-split into children that carry the
parent's id, section and page range. -/
def create_parent_child_chunks
    (parentSplit childSplit : String → List String)
    (detectSection pageRange : String → String) (ids : ℕ → String)
    (doc : DocInfo) : List Chunk × List Chunk :=
  if strTrim doc.full_text = "" then ([], [])
  else
    let base : ChunkMeta :=
      ⟨doc.filename, doc.title, doc.date, doc.audience, doc.subject,
        doc.is_latest, doc.status, doc.references, "", "", "", "", "",
        false⟩
    let res := (parentSplit doc.full_text).foldl
      (chunkStep childSplit detectSection pageRange ids base) ([], [], 0)
    (res.1, res.2.1)

theorem chunkChildren_mem (base : ChunkMeta) (pid sec pg : String)
    (ids : ℕ → String) (childTexts : List String) (start : ℕ) :
    ∀ c ∈ (chunkChildren base pid sec pg ids childTexts start).1,
      c.metadata.parent_id = pid ∧ c.text ∈ childTexts := by
  suffices h : ∀ (cts : List String) (acc2 : List Chunk × ℕ),
      ∀ c ∈ (cts.foldl (fun acc2 ctext =>
        (acc2.1 ++ [⟨ids acc2.2, ctext,
          { base with
              child_id := ids acc2.2, parent_id := pid,
              sectionLabel := sec, pages := pg, chunk_type := "child",
              has_table := hasTable ctext }⟩], acc2.2 + 1)) acc2).1,
        c ∈ acc2.1 ∨ (c.metadata.parent_id = pid ∧ c.text ∈ cts) by
    intro c hc
    rcases h childTexts ([], start) c hc with h' | h'
    · cases h'
    · exact h'
  intro cts
  induction cts with
  | nil => intro acc2 c hc; exact Or.inl hc
  | cons x xs ih =>
    intro acc2 c hc
    rw [List.foldl_cons] at hc
    rcases ih _ c hc with h' | h'
    · rcases List.mem_append.mp h' with h'' | h''
      · exact Or.inl h''
      · rcases List.mem_singleton.mp h'' with rfl
        exact Or.inr ⟨rfl, List.mem_cons_self x xs⟩
    · exact Or.inr ⟨h'.1, List.mem_cons_of_mem x h'.2⟩

/-- Fold invariant: every accumulated child points to an accumulated
parent whose recorded text it was split from. -/
theorem foldl_chunkStep_inv (childSplit : String → List String)
    (detectSection pageRange : String → String) (ids : ℕ → String)
    (base : ChunkMeta) (pts : List String) :
    ∀ acc : List Chunk × List Chunk × ℕ,
      (∀ c ∈ acc.2.1, ∃ p ∈ acc.1,
        p.id = c.metadata.parent_id ∧ c.text ∈ childSplit p.text) →
      ∀ c ∈ (pts.foldl
        (chunkStep childSplit detectSection pageRange ids base) acc).2.1,
        ∃ p ∈ (pts.foldl
          (chunkStep childSplit detectSection pageRange ids base) acc).1,
          p.id = c.metadata.parent_id ∧ c.text ∈ childSplit p.text := by
  induction pts with
  | nil => intro acc hinv c hc; exact hinv c hc
  | cons ptext pts ih =>
    intro acc hinv
    rw [List.foldl_cons]
    apply ih
    intro c hc
    unfold chunkStep at hc ⊢
    rcases List.mem_append.mp hc with h' | h'
    · rcases hinv c h' with ⟨p, hp, hpc⟩
      exact ⟨p, List.mem_append.mpr (Or.inl hp), hpc⟩
    · rcases chunkChildren_mem base (ids acc.2.2) (detectSection ptext)
        (pageRange ptext) ids (childSplit ptext) (acc.2.2 + 1) c h' with
        ⟨hpid, htext⟩
      refine ⟨⟨ids acc.2.2, ptext, _⟩,
        List.mem_append.mpr (Or.inr (List.mem_singleton.mpr rfl)), ?_, ?_⟩
      · exact hpid.symm
      · exact htext

/-- C10: every produced child's `parent_id` is the id of a parent in the
returned parents list, and that parent's recorded text is the text the
child was split from; a document whose full text is empty or
whitespace-only yields zero parents and zero children. -/
theorem create_chunks_linkage
    (parentSplit childSplit : String → List String)
    (detectSection pageRange : String → String) (ids : ℕ → String)
    (doc : DocInfo) :
    (strTrim doc.full_text = "" →
      create_parent_child_chunks parentSplit childSplit detectSection
        pageRange ids doc = ([], [])) ∧
    (∀ c ∈ (create_parent_child_chunks parentSplit childSplit
        detectSection pageRange ids doc).2,
      ∃ p ∈ (create_parent_child_chunks parentSplit childSplit
        detectSection pageRange ids doc).1,
        p.id = c.metadata.parent_id ∧ c.text ∈ childSplit p.text) := by
  constructor
  · intro h
    unfold create_parent_child_chunks
    rw [if_pos h]
  · intro c hc
    unfold create_parent_child_chunks at hc ⊢
    by_cases h : strTrim doc.full_text = ""
    · rw [if_pos h] at hc
      cases hc
    · rw [if_neg h] at hc ⊢
      exact foldl_chunkStep_inv childSplit detectSection pageRange ids _
        (parentSplit doc.full_text) ([], [], 0) (fun c hc => by cases hc)
        c hc

/-- A concrete whitespace-only document. -/
def blankDoc : DocInfo :=
  ⟨"blank.pdf", "Blank", "  \n ", "", "General", "", true, "ACTIVE", []⟩

/-- A concrete two-page document. -/
def smallDoc : DocInfo :=
  ⟨"c.pdf", "Circular", "line one\nline two", "2024-01-01", "Mutual Funds",
    "margin rules", true, "ACTIVE", []⟩

/-- Concrete instantiation of C10: a whitespace-only document yields no
chunks, and with identity splitters every child of a concrete document
links to its parent. -/
theorem create_chunks_linkage_witness :
    create_parent_child_chunks (fun s => [s]) (fun s => [s])
      (fun _ => "") (fun _ => "") (fun _ => "uid") blankDoc = ([], []) ∧
    ∀ c ∈ (create_parent_child_chunks (fun s => [s]) (fun s => [s])
        (fun _ => "") (fun _ => "") (fun _ => "uid") smallDoc).2,
      ∃ p ∈ (create_parent_child_chunks (fun s => [s]) (fun s => [s])
        (fun _ => "") (fun _ => "") (fun _ => "uid") smallDoc).1,
        p.id = c.metadata.parent_id ∧ c.text ∈ [p.text] :=
  ⟨(create_chunks_linkage (fun s => [s]) (fun s => [s]) (fun _ => "")
      (fun _ => "") (fun _ => "uid") blankDoc).1 (by decide),
    (create_chunks_linkage (fun s => [s]) (fun s => [s]) (fun _ => "")
      (fun _ => "") (fun _ => "uid") smallDoc).2⟩

/-- C8: if the child splitter only produces contiguous substrings of its
input (the contract of `RecursiveCharacterTextSplitter.split_text`, whose
overlapping windows are spans of the text it is given), then every
produced child's text is a contiguous substring of its owning parent's
text. -/
theorem child_text_substring_of_parent
    (parentSplit childSplit : String → List String)
    (detectSection pageRange : String → String) (ids : ℕ → String)
    (doc : DocInfo)
    (hsub : ∀ s, ∀ t ∈ childSplit s, SubstrOf t s) :
    ∀ c ∈ (create_parent_child_chunks parentSplit childSplit
        detectSection pageRange ids doc).2,
      ∃ p ∈ (create_parent_child_chunks parentSplit childSplit
        detectSection pageRange ids doc).1,
        p.id = c.metadata.parent_id ∧ SubstrOf c.text p.text := by
  intro c hc
  unfold create_parent_child_chunks at hc ⊢
  by_cases h : strTrim doc.full_text = ""
  · rw [if_pos h] at hc
    cases hc
  · rw [if_neg h] at hc ⊢
    rcases foldl_chunkStep_inv childSplit detectSection pageRange ids _
      (parentSplit doc.full_text) ([], [], 0) (fun c hc => by cases hc)
      c hc with ⟨p, hp, hid, htext⟩
    exact ⟨p, hp, hid, hsub p.text c.text htext⟩

/-- Modelled from the spec: a splitter producing overlapping contiguous
windows (spec §4.1 — the layered separator strategy of the third-party
`RecursiveCharacterTextSplitter`, which is not part of this repository,
emits contiguous spans of its input with an overlap window; this model
keeps the span-with-overlap structure with a fixed window and step). -/
def windowSplit (size step : ℕ) (s : String) : List String :=
  (List.range ((s.data.length + step - 1) / step)).map
    fun i => ⟨(s.data.drop (i * step)).take size⟩

/-- A take of a drop is a contiguous substring. -/
theorem substrOf_take_drop (l : List Char) (k n : ℕ) :
    SubstrOf ⟨(l.drop k).take n⟩ ⟨l⟩ := by
  refine ⟨l.take k, (l.drop k).drop n, ?_⟩
  show l = l.take k ++ (l.drop k).take n ++ (l.drop k).drop n
  rw [List.append_assoc, List.take_append_drop, List.take_append_drop]

/-- Every chunk emitted by `windowSplit` is a contiguous substring of the
input. -/
theorem windowSplit_substrOf (size step : ℕ) (s : String) :
    ∀ t ∈ windowSplit size step s, SubstrOf t s := by
  intro t ht
  rcases List.mem_map.mp ht with ⟨i, _, rfl⟩
  have h := substrOf_take_drop s.data (i * step) size
  exact h

/-- The metadata block of the children of `smallDoc`. -/
def smallChildMeta : ChunkMeta :=
  ⟨"c.pdf", "Circular", "2024-01-01", "Mutual Funds", "margin rules",
    true, "ACTIVE", [], "uid", "", "", "child", "uid", false⟩

/-- Concrete instantiation of C8: with an overlapping-window child
splitter (whose chunks are contiguous substrings), the second —
overlap-straddling — child window of a concrete document is a substring
of its parent. -/
theorem child_text_substring_of_parent_witness :
    ∃ p ∈ (create_parent_child_chunks (fun s => [s]) (windowSplit 6 4)
        (fun _ => "") (fun _ => "") (fun _ => "uid") smallDoc).1,
      p.id = (⟨"uid", " one\nl", smallChildMeta⟩ : Chunk).metadata.parent_id ∧
      SubstrOf (⟨"uid", " one\nl", smallChildMeta⟩ : Chunk).text p.text :=
  child_text_substring_of_parent (fun s => [s]) (windowSplit 6 4)
    (fun _ => "") (fun _ => "") (fun _ => "uid") smallDoc
    (fun s t ht => windowSplit_substrOf 6 4 s t ht)
    ⟨"uid", " one\nl", smallChildMeta⟩ (by decide)

/-! ### Temporal versioning (`ingest.determine_latest_versions`,
ingest.py 304-321)

The function groups circulars by `subject_normalized` (default `""`),
sorts each group stably by the `date_parsed` string descending (Python's
`list.sort(key=…, reverse=True)`), and marks the head of each sorted
group ACTIVE / latest and the rest SUPERSEDED.  Python compares the date
strings lexicographically by code point — the lexicographic order on
their character lists.  The in-place dict mutation is modelled by mapping
every indexed element to its updated record. -/

/-- A circular record with the fields touched by
`determine_latest_versions`; `.get` defaults are total fields, and the
`version_count` / `all_versions` keys (only written for groups of more
than one) are `Option`s. -/
structure Circular where
  subject_normalized : String
  date_parsed : String
  filename : String
  is_latest : Bool
  status : String
  version_count : Option ℕ
  all_versions : Option (List String)
deriving DecidableEq, Repr

/-- The sort key `x.get("date_parsed", "")`, as a character list under the
code-point lexicographic order. -/
def dateKey (q : ℕ × Circular) : List Char := q.2.date_parsed.data

/-- The subject group an indexed circular belongs to
(`subject_groups[key]`, in input order). -/
def dlvGroup (indexed : List (ℕ × Circular)) (p : ℕ × Circular) :
    List (ℕ × Circular) :=
  indexed.filter fun q => q.2.subject_normalized = p.2.subject_normalized

/-- The update applied to one circular by the group loop
(ingest.py 312-319): the head of the stably-date-sorted group becomes
ACTIVE / latest, all others SUPERSEDED; groups of more than one record
their size and sorted filename list. -/
def dlvUpdate (indexed : List (ℕ × Circular)) (p : ℕ × Circular) :
    Circular :=
  let g := dlvGroup indexed p
  let sorted := sortByKeyDesc dateKey g
  let isFirst := decide (sorted.head? = some p)
  { p.2 with
      is_latest := isFirst,
      status := if isFirst then "ACTIVE" else "SUPERSEDED",
      version_count :=
        if 1 < g.length then some g.length else p.2.version_count,
      all_versions :=
        if 1 < g.length then some (sorted.map fun q => q.2.filename)
        else p.2.all_versions }

/-- `ingest.determine_latest_versions` (ingest.py 304-321). -/
def determine_latest_versions (cs : List Circular) : List Circular :=
  cs.enum.map (dlvUpdate cs.enum)

theorem dlvUpdate_subject (indexed : List (ℕ × Circular))
    (p : ℕ × Circular) :
    (dlvUpdate indexed p).subject_normalized = p.2.subject_normalized :=
  rfl

theorem dlvUpdate_date (indexed : List (ℕ × Circular)) (p : ℕ × Circular) :
    (dlvUpdate indexed p).date_parsed = p.2.date_parsed := rfl

theorem dlvUpdate_latest (indexed : List (ℕ × Circular))
    (p : ℕ × Circular) :
    (dlvUpdate indexed p).is_latest =
      decide ((sortByKeyDesc dateKey (dlvGroup indexed p)).head? = some p) :=
  rfl

theorem dlvUpdate_status (indexed : List (ℕ × Circular))
    (p : ℕ × Circular) :
    (dlvUpdate indexed p).status =
      if (sortByKeyDesc dateKey (dlvGroup indexed p)).head? = some p
      then "ACTIVE" else "SUPERSEDED" := by
  by_cases h : (sortByKeyDesc dateKey (dlvGroup indexed p)).head? = some p
    <;> simp [dlvUpdate, h]

theorem enumFrom_enumFrom {α : Type} (l : List α) :
    ∀ n : ℕ, (l.enumFrom n).enumFrom n =
      (l.enumFrom n).map fun p => (p.1, p) := by
  induction l with
  | nil => intro n; rfl
  | cons a l ih =>
    intro n
    rw [List.enumFrom_cons, List.enumFrom_cons, ih (n + 1), List.map_cons]

theorem enum_enum {α : Type} (l : List α) :
    l.enum.enum = l.enum.map fun p => (p.1, p) :=
  enumFrom_enumFrom l 0

theorem pairwise_fst_enumFrom {α : Type} (l : List α) :
    ∀ n : ℕ, (l.enumFrom n).Pairwise fun a b => a.1 < b.1 := by
  induction l with
  | nil => intro n; simp
  | cons a l ih =>
    intro n
    rw [List.enumFrom_cons]
    refine List.pairwise_cons.mpr ⟨?_, ih (n + 1)⟩
    intro b hb
    have hle := List.le_fst_of_mem_enumFrom hb
    show n < b.1
    omega

/-- C5: after `determine_latest_versions`, within every non-empty subject
group there is a member that is ACTIVE and latest, carries a maximal
`date_parsed` (ties resolved towards the smallest input index, i.e.
stable input order), and every other member of the group is SUPERSEDED
and not latest. -/
theorem determine_latest_versions_spec (cs : List Circular) (key : String)
    (hne : cs.enum.filter (fun p => p.2.subject_normalized = key) ≠ []) :
    ∃ p ∈ (determine_latest_versions cs).enum.filter
        (fun q => q.2.subject_normalized = key),
      p.2.status = "ACTIVE" ∧ p.2.is_latest = true ∧
      (∀ q ∈ (determine_latest_versions cs).enum.filter
          (fun q => q.2.subject_normalized = key),
        q.2.date_parsed.data ≤ p.2.date_parsed.data) ∧
      (∀ q ∈ (determine_latest_versions cs).enum.filter
          (fun q => q.2.subject_normalized = key),
        q.2.date_parsed = p.2.date_parsed → p.1 ≤ q.1) ∧
      (∀ q ∈ (determine_latest_versions cs).enum.filter
          (fun q => q.2.subject_normalized = key),
        q ≠ p → q.2.status = "SUPERSEDED" ∧ q.2.is_latest = false) := by
  have hout : (determine_latest_versions cs).enum =
      cs.enum.map fun p => (p.1, dlvUpdate cs.enum p) := by
    unfold determine_latest_versions
    rw [List.enum_map, enum_enum, List.map_map]
    rfl
  have hGout : (determine_latest_versions cs).enum.filter
      (fun q => q.2.subject_normalized = key) =
      (cs.enum.filter (fun p => p.2.subject_normalized = key)).map
        fun p => (p.1, dlvUpdate cs.enum p) := by
    rw [hout, List.filter_map]
    congr 1
  set Gin := cs.enum.filter (fun p => p.2.subject_normalized = key)
    with hGin
  have hgrp : ∀ p ∈ Gin, dlvGroup cs.enum p = Gin := by
    intro p hp
    have hkey : p.2.subject_normalized = key := by
      have hmem := List.mem_filter.mp hp
      simpa using hmem.2
    unfold dlvGroup
    rw [hGin]
    apply List.filter_congr
    intro a _
    simp [hkey]
  have hperm : List.Perm (sortByKeyDesc dateKey Gin) Gin :=
    sortByKeyDesc_perm dateKey Gin
  obtain ⟨h0, tl, hcons⟩ : ∃ h0 tl, sortByKeyDesc dateKey Gin = h0 :: tl := by
    cases hs : sortByKeyDesc dateKey Gin with
    | nil =>
      exfalso
      apply hne
      have h2 := hperm
      rw [hs] at h2
      exact (h2.symm.eq_nil)
    | cons a b => exact ⟨a, b, rfl⟩
  have hhead : (sortByKeyDesc dateKey Gin).head? = some h0 := by
    rw [hcons]; rfl
  have hmem0 : h0 ∈ Gin :=
    hperm.mem_iff.mp (hcons ▸ List.mem_cons_self h0 tl)
  have hpGin : Gin.Pairwise fun a b => a.1 < b.1 :=
    (pairwise_fst_enumFrom cs 0).filter _
  have hsp := sortByKeyDesc_pairwise dateKey (fun a b => a.1 < b.1) Gin hpGin
  rw [hcons] at hsp
  rcases List.pairwise_cons.mp hsp with ⟨hh0, _⟩
  have hq_all : ∀ q ∈ Gin, dateKey q ≤ dateKey h0 ∧
      (dateKey q = dateKey h0 → h0.1 ≤ q.1) := by
    intro q hq
    have hq2 : q ∈ sortByKeyDesc dateKey Gin := hperm.mem_iff.mpr hq
    rw [hcons] at hq2
    rcases List.mem_cons.mp hq2 with rfl | hq'
    · exact ⟨le_refl _, fun _ => le_refl _⟩
    · rcases hh0 q hq' with h' | h'
      · exact ⟨le_of_lt h', fun he => absurd he (ne_of_lt h')⟩
      · exact ⟨le_of_eq h'.1.symm, fun _ => le_of_lt h'.2⟩
  have hcond : ∀ q ∈ Gin,
      ((sortByKeyDesc dateKey (dlvGroup cs.enum q)).head? = some q ↔
        q = h0) := by
    intro q hq
    rw [hgrp q hq, hhead]
    simp [eq_comm]
  have hstat : ∀ q ∈ Gin,
      (dlvUpdate cs.enum q).status =
        (if q = h0 then "ACTIVE" else "SUPERSEDED") ∧
      (dlvUpdate cs.enum q).is_latest = decide (q = h0) := by
    intro q hq
    constructor
    · rw [dlvUpdate_status]
      by_cases hqe : q = h0
      · rw [if_pos ((hcond q hq).mpr hqe), if_pos hqe]
      · rw [if_neg (fun hh => hqe ((hcond q hq).mp hh)), if_neg hqe]
    · rw [dlvUpdate_latest]
      exact decide_eq_decide.mpr (hcond q hq)
  refine ⟨(h0.1, dlvUpdate cs.enum h0), ?_, ?_, ?_, ?_, ?_, ?_⟩
  · rw [hGout]
    exact List.mem_map_of_mem _ hmem0
  · have := (hstat h0 hmem0).1
    rw [this, if_pos rfl]
  · have := (hstat h0 hmem0).2
    rw [this]
    simp
  · intro q hq
    rw [hGout] at hq
    rcases List.mem_map.mp hq with ⟨r, hr, rfl⟩
    show (dlvUpdate cs.enum r).date_parsed.data ≤
      (dlvUpdate cs.enum h0).date_parsed.data
    rw [dlvUpdate_date, dlvUpdate_date]
    exact (hq_all r hr).1
  · intro q hq hdate
    rw [hGout] at hq
    rcases List.mem_map.mp hq with ⟨r, hr, rfl⟩
    rw [dlvUpdate_date, dlvUpdate_date] at hdate
    exact (hq_all r hr).2 (congrArg String.data hdate)
  · intro q hq hqne
    rw [hGout] at hq
    rcases List.mem_map.mp hq with ⟨r, hr, rfl⟩
    have hrne : r ≠ h0 := by
      intro hh
      exact hqne (by rw [hh])
    constructor
    · rw [(hstat r hr).1, if_neg hrne]
    · rw [(hstat r hr).2]
      simp [hrne]

/-- A concrete 2022 circular. -/
def cir2022 : Circular :=
  ⟨"margin rules", "2022-01-15", "margin_2022.pdf", false, "", none, none⟩

/-- A concrete 2024 circular with the same normalized subject. -/
def cir2024 : Circular :=
  ⟨"margin rules", "2024-06-30", "margin_2024.pdf", false, "", none, none⟩

/-- Concrete instantiation of C5: with a 2022 and a 2024 circular in one
subject group, the 2024 one becomes ACTIVE / latest and the 2022 one
SUPERSEDED. -/
theorem determine_latest_versions_spec_witness :
    (∃ p ∈ (determine_latest_versions [cir2022, cir2024]).enum.filter
        (fun q => q.2.subject_normalized = "margin rules"),
      p.2.status = "ACTIVE" ∧ p.2.is_latest = true ∧
      (∀ q ∈ (determine_latest_versions [cir2022, cir2024]).enum.filter
          (fun q => q.2.subject_normalized = "margin rules"),
        q.2.date_parsed.data ≤ p.2.date_parsed.data) ∧
      (∀ q ∈ (determine_latest_versions [cir2022, cir2024]).enum.filter
          (fun q => q.2.subject_normalized = "margin rules"),
        q.2.date_parsed = p.2.date_parsed → p.1 ≤ q.1) ∧
      (∀ q ∈ (determine_latest_versions [cir2022, cir2024]).enum.filter
          (fun q => q.2.subject_normalized = "margin rules"),
        q ≠ p → q.2.status = "SUPERSEDED" ∧ q.2.is_latest = false)) ∧
    determine_latest_versions [cir2022, cir2024] =
      [⟨"margin rules", "2022-01-15", "margin_2022.pdf", false,
          "SUPERSEDED", some 2, some ["margin_2024.pdf", "margin_2022.pdf"]⟩,
        ⟨"margin rules", "2024-06-30", "margin_2024.pdf", true,
          "ACTIVE", some 2, some ["margin_2024.pdf", "margin_2022.pdf"]⟩] :=
  ⟨determine_latest_versions_spec [cir2022, cir2024] "margin rules"
      (by decide),
    by decide⟩

end SebiRag
